import Mathlib

/-!
Verification development for the macrokit procedural-macro crate.

The crate has three compile-time transforms over enum declarations:

* `from_repr_as_option_derive_impl` (src/macros/from_repr.rs) emits an
  inherent `from_repr : T -> Option Self` whose match arms compare the
  input against `Enum::Variant as T` for every variant, in declaration
  order, with a trailing `_ => None` arm.
* `from_repr_with_unknown_derive_impl` (src/macros/from_repr.rs) emits
  `impl From<T> for Enum` with the same arms, except that every variant
  named `Unknown` is skipped, and the trailing arm is `_ => Enum::Unknown`.
* `generate_enum_with_docs` (src/macros/doc_macros/enum_macro.rs) rebuilds
  the enum, resolving each variant's discriminant with a running counter
  and attaching a `#[doc = "..."]` line per variant.

The embedding below models syntax as plain data: an attribute is a path
plus a list of bare-identifier arguments (the shape `syn`'s
`parse_nested_meta` walks, and that `parse_args::<Ident>` consumes), and
an enum variant carries its identifier together with either a parsed
integer-literal discriminant, a non-literal discriminant expression, or no
discriminant.  For the two conversion derives, whose emitted guards
`v == Enum::Variant as T` are resolved by the host compiler, a variant is
modelled as its identifier paired with the host-resolved value of
`Enum::Variant as T`, and the runtime meaning of the emitted `match` is a
Lean function over those pairs.
-/

set_option maxRecDepth 100000

namespace Macrokit

/-- An attribute such as `#[repr(u8)]`: its path and the identifier
arguments inside the parentheses. -/
structure Attr where
  path : String
  args : List String
  deriving DecidableEq

/-- The twelve integer type names recognised by `extract_repr`
(enum_macro.rs lines 26-37). -/
def reprTypeNames : List String :=
  ["u8", "u16", "u32", "u64", "u128",
   "i8", "i16", "i32", "i64", "i128", "usize", "isize"]

/-- The walk `attr.parse_nested_meta` performs in `extract_repr`: `found`
starts as `None` and is overwritten by every argument that matches one of
the twelve names (enum_macro.rs lines 24-46). -/
def scanReprArgs (args : List String) : Option String :=
  args.foldl (fun found p => if p ∈ reprTypeNames then some p else found) none

/-- The last argument matching one of the twelve names, looking from the
end of the argument list. -/
def lastMatch : List String → Option String
  | [] => none
  | g :: rest =>
    match lastMatch rest with
    | some t => some t
    | none => if g ∈ reprTypeNames then some g else none

/-- The documentation transform's extractor `extract_repr`
(enum_macro.rs lines 19-53): walk the attributes; for an attribute whose
path is `repr`, scan its arguments; return as soon as a scan found a
match, otherwise keep looking. -/
def extract_repr : List Attr → Option String
  | [] => none
  | a :: rest =>
    if a.path = "repr" then
      match scanReprArgs a.args with
      | some t => some t
      | none => extract_repr rest
    else extract_repr rest

/-- Model of `attr.parse_args::<Ident>()`: it succeeds exactly when the
argument tokens form one bare identifier. -/
def parse_args_ident : List String → Option String
  | [t] => some t
  | _ => none

/-- The conversion derives' extractor `get_repr_type`
(from_repr.rs lines 108-115): return on the first attribute whose path is
`repr`, parsing its arguments as a single identifier with no validation
against the known integer type names. -/
def get_repr_type : List Attr → Option String
  | [] => none
  | a :: rest =>
    if a.path = "repr" then parse_args_ident a.args
    else get_repr_type rest

/-- The `data` of a `DeriveInput`: an enum (its variants, each the
identifier paired with the host-resolved value of `Enum::Variant as T`),
or a struct/union. -/
inductive Data where
  | enumData (variants : List (String × Int))
  | nonEnum
  deriving DecidableEq

/-- The parsed derive input: enum name, attribute list, and data. -/
structure DeriveInput where
  ident : String
  attrs : List Attr
  data : Data
  deriving DecidableEq

/-- Outcome of running a derive: the generated impl, or a panic that
aborts the expansion with a message. -/
inductive Derived (α : Type) where
  | ok (impl : α)
  | fatal (msg : String)
  deriving DecidableEq

/-- The impl emitted by the `FromReprWithUnknown` derive: the repr type,
the guarded match arms in declaration order (identifier and the value its
guard compares against), and the identifier referenced by the trailing
`_ =>` arm. -/
structure WithUnknownImpl where
  reprTy : String
  arms : List (String × Int)
  fallback : String
  deriving DecidableEq

/-- The impl emitted by the `FromReprAsOption` derive: the repr type and
the guarded match arms in declaration order. -/
structure AsOptionImpl where
  reprTy : String
  arms : List (String × Int)
  deriving DecidableEq

/-- Core of the `FromReprWithUnknown` derive
(from_repr.rs lines 9-52): panic if no `#[repr(...)]` parses, panic on a
non-enum, otherwise emit arms for every variant except those named
`Unknown`, with `Enum::Unknown` as the fallback of the trailing arm. -/
def from_repr_with_unknown_derive_impl (ast : DeriveInput) : Derived WithUnknownImpl :=
  match get_repr_type ast.attrs with
  | none => .fatal "FromWithUnknown requires a #[repr(...)] attribute (e.g., #[repr(u8)])"
  | some t =>
    match ast.data with
    | .enumData vs =>
      .ok ⟨t, vs.filterMap (fun v => if v.1 = "Unknown" then none else some v), "Unknown"⟩
    | .nonEnum => .fatal "FromWithUnknown can only be used on enums"

/-- Core of the `FromReprAsOption` derive (from_repr.rs lines 59-97):
panic if no `#[repr(...)]` parses, panic on a non-enum, otherwise emit one
arm per variant in declaration order. -/
def from_repr_as_option_derive_impl (ast : DeriveInput) : Derived AsOptionImpl :=
  match get_repr_type ast.attrs with
  | none => .fatal "FromReprAsOption requires a #[repr(...)] attribute (e.g., #[repr(u8)])"
  | some t =>
    match ast.data with
    | .enumData vs => .ok ⟨t, vs⟩
    | .nonEnum => .fatal "FromReprAsOption can only be used on enums"

/-- Runtime meaning of the emitted `from_repr` function: the first arm
whose guard `v == Enum::Variant as T` holds wins, and the trailing arm
yields `None`. -/
def run_from_repr (impl : AsOptionImpl) (x : Int) : Option String :=
  (impl.arms.find? (fun p => p.2 == x)).map (fun p => p.1)

/-- Runtime meaning of the emitted `From<T>` impl: the first arm whose
guard holds wins, and the trailing arm yields the fallback variant. -/
def run_with_unknown (impl : WithUnknownImpl) (x : Int) : String :=
  match impl.arms.find? (fun p => p.2 == x) with
  | some p => p.1
  | none => impl.fallback

/-- A variant's explicit discriminant, as `generate_enum_with_docs`
classifies it: an integer literal whose `base10_parse::<i128>` succeeds,
or any other expression (a non-literal expression, a non-integer literal,
or an out-of-range integer literal, which all leave `val` untouched). -/
inductive DiscExpr where
  | litInt (v : Int)
  | other
  deriving DecidableEq

/-- An input variant of the documentation transform: identifier, its own
attributes (carried through verbatim), and the optional explicit
discriminant. -/
structure EVariantIn where
  ident : String
  vattrs : List Attr
  disc : Option DiscExpr
  deriving DecidableEq

/-- The enum handed to `generate_enum_with_docs`.  Visibility and generic
parameters are copied through verbatim by the transform and no claim
concerns them, so they are not modelled. -/
structure ItemEnumIn where
  ident : String
  attrs : List Attr
  variants : List EVariantIn
  deriving DecidableEq

/-- The per-variant body of the loop in `generate_enum_with_docs`
(enum_macro.rs lines 82-103): an explicit literal discriminant sets
`val` to the literal and the counter to literal + 1; otherwise `val` is
still `None`, and if the counter is defined, `val` takes its value and the
counter increments.  Returns `(val, next_val)`. -/
def resolveStep (next_val : Option Int) (disc : Option DiscExpr) :
    Option Int × Option Int :=
  match disc with
  | some (DiscExpr.litInt n) => (some n, some (n + 1))
  | _ =>
    match next_val with
    | some v => (some v, some (v + 1))
    | none => (none, next_val)

/-- The resolver run over a variant list from a given counter state,
recording each variant's `val`. -/
def resolveGo : Option Int → List EVariantIn → List (String × Option Int)
  | _, [] => []
  | nv, v :: rest =>
    let r := resolveStep nv v.disc
    (v.ident, r.1) :: resolveGo r.2 rest

/-- The Discriminant Resolver of the documentation transform: the counter
starts at `Some(0)` (enum_macro.rs line 78). -/
def resolveAll (vs : List EVariantIn) : List (String × Option Int) :=
  resolveGo (some 0) vs

/-- The counter state left after the resolver has processed a variant
list. -/
def resolveFinal : Option Int → List EVariantIn → Option Int
  | nv, [] => nv
  | nv, v :: rest => resolveFinal (resolveStep nv v.disc).2 rest

/-- Uppercase hexadecimal rendering of a natural number, without prefix. -/
def natToHex (n : Nat) : String :=
  ((Nat.toDigits 16 n).map Char.toUpper).asString

/-- Rust's `format!("\x7b:#X\x7d", v)` for an `i128` value: `0x` followed
by the uppercase hexadecimal form, a negative value rendered as its
128-bit two's complement. -/
def hexStr (v : Int) : String :=
  "0x" ++ natToHex (Int.toNat (v % (2 : Int) ^ 128))

/-- Rust's `format!("\x7b\x7d", v)` for an `i128` value. -/
def decStr (v : Int) : String := toString v

/-- The doc line for a variant whose value resolved
(enum_macro.rs line 109). -/
def docResolved (ident : String) (v : Int) : String :=
  ident ++ " = " ++ hexStr v ++ " (" ++ decStr v ++ ")"

/-- The doc line built for a variant (enum_macro.rs lines 106-112). -/
def docLine (ident : String) : Option Int → String
  | some v => docResolved ident v
  | none => ident ++ " (unknown)"

/-- An output variant of the documentation transform: carried-through
attributes, the generated doc line, the identifier, and the emitted
discriminant `= v as repr_ty` when `val` resolved (`none` means the
variant is emitted without a discriminant). -/
structure OutVariant where
  vattrs : List Attr
  doc : String
  ident : String
  disc : Option (Int × String)
  deriving DecidableEq

/-- One iteration of the output loop (enum_macro.rs lines 81-128):
resolve, build the doc line, and emit the variant with `= v as repr_ty`
exactly when `val` resolved. -/
def genGo (reprTy : String) : Option Int → List EVariantIn → List OutVariant
  | _, [] => []
  | nv, v :: rest =>
    let r := resolveStep nv v.disc
    { vattrs := v.vattrs
      doc := docLine v.ident r.1
      ident := v.ident
      disc := r.1.map (fun n => (n, reprTy)) } :: genGo reprTy r.2 rest

/-- The reconstructed enum emitted by the documentation transform. -/
structure DocEnumOut where
  ident : String
  attrs : List Attr
  reprTy : String
  variants : List OutVariant
  deriving DecidableEq

/-- The documentation transform `generate_enum_with_docs`
(enum_macro.rs lines 68-139): extract the repr type (defaulting to
`isize`), resolve every variant with the counter starting at `Some(0)`,
and rebuild the enum. -/
def generate_enum_with_docs (input : ItemEnumIn) : DocEnumOut :=
  let reprTy := (extract_repr input.attrs).getD "isize"
  { ident := input.ident
    attrs := input.attrs
    reprTy := reprTy
    variants := genGo reprTy (some 0) input.variants }


/-! ### Helper lemmas about the emitted match arms -/

/-- With pairwise distinct guard values, the first matching arm for input
`d` is exactly the arm of the variant whose value is `d`. -/
theorem find?_arm_of_nodup (vs : List (String × Int)) (v : String) (d : Int)
    (hsnd : (vs.map Prod.snd).Nodup) (hmem : (v, d) ∈ vs) :
    vs.find? (fun p => p.2 == d) = some (v, d) := by
  induction vs with
  | nil => simp at hmem
  | cons a t ih =>
    simp only [List.map_cons, List.nodup_cons] at hsnd
    rcases List.mem_cons.mp hmem with h | h
    · rw [← h]
      exact List.find?_cons_of_pos _ (by simp)
    · have hne : (a.2 == d) = false := by
        rw [beq_eq_false_iff_ne]
        intro ha
        have hd : (d : Int) ∈ List.map Prod.snd t := by
          have := List.mem_map_of_mem Prod.snd h
          simpa using this
        exact hsnd.1 (by rw [ha]; exact hd)
      rw [List.find?_cons]
      simp only [hne]
      exact ih hsnd.2 h

/-- With pairwise distinct variant identifiers, an identifier determines
its arm's guard value. -/
theorem arm_value_unique (vs : List (String × Int)) (v : String) (d d' : Int)
    (hfst : (vs.map Prod.fst).Nodup) (h1 : (v, d) ∈ vs) (h2 : (v, d') ∈ vs) :
    d = d' := by
  induction vs with
  | nil => simp at h1
  | cons a t ih =>
    simp only [List.map_cons, List.nodup_cons] at hfst
    rcases List.mem_cons.mp h1 with e1 | e1 <;> rcases List.mem_cons.mp h2 with e2 | e2
    · have h := e1.trans e2.symm
      simpa using congrArg Prod.snd h
    · exfalso
      have hv : v ∈ List.map Prod.fst t := by
        have := List.mem_map_of_mem Prod.fst e2
        simpa using this
      have ha1 : a.1 = v := by rw [← e1]
      exact hfst.1 (ha1 ▸ hv)
    · exfalso
      have hv : v ∈ List.map Prod.fst t := by
        have := List.mem_map_of_mem Prod.fst e1
        simpa using this
      have ha1 : a.1 = v := by rw [← e2]
      exact hfst.1 (ha1 ▸ hv)
    · exact ih hfst.2 e1 e2

/-- If no arm's guard value equals the input, no arm matches. -/
theorem find?_arm_none (vs : List (String × Int)) (x : Int)
    (hx : ∀ p ∈ vs, p.2 ≠ x) :
    vs.find? (fun p => p.2 == x) = none := by
  rw [List.find?_eq_none]
  intro p hp hbeq
  exact hx p hp (by simpa using hbeq)

/-- The `filter_map` that skips `Unknown` arms is a plain filter. -/
theorem filterMap_unknown_eq_filter (vs : List (String × Int)) :
    vs.filterMap (fun v => if v.1 = "Unknown" then none else some v) =
      vs.filter (fun p => p.1 != "Unknown") := by
  induction vs with
  | nil => rfl
  | cons a t ih =>
    by_cases ha : a.1 = "Unknown" <;>
      simp [List.filterMap_cons, List.filter_cons, ha, ih]

/-! ### Helper lemmas about the repr-type scan -/

/-- The `found`-overwriting fold of `extract_repr` from any accumulator
computes the last matching argument, falling back to the accumulator. -/
theorem scan_foldl_lastMatch (args : List String) : ∀ acc : Option String,
    args.foldl (fun found p => if p ∈ reprTypeNames then some p else found) acc =
      match lastMatch args with
      | some t => some t
      | none => acc := by
  induction args with
  | nil => intro acc; rfl
  | cons a l ih =>
    intro acc
    rw [List.foldl_cons, ih]
    cases hf : lastMatch l with
    | some t => simp [lastMatch, hf]
    | none => by_cases ha : a ∈ reprTypeNames <;> simp [lastMatch, hf, ha]

/-- The scan of a repr attribute's arguments is the last matching
argument. -/
theorem scanReprArgs_eq_lastMatch (args : List String) :
    scanReprArgs args = lastMatch args := by
  unfold scanReprArgs
  rw [scan_foldl_lastMatch]
  cases lastMatch args <;> rfl

/-- `lastMatch` only produces members of the closed set. -/
theorem lastMatch_mem (args : List String) (t : String)
    (h : lastMatch args = some t) : t ∈ reprTypeNames := by
  induction args with
  | nil => simp [lastMatch] at h
  | cons a l ih =>
    rw [lastMatch] at h
    cases hf : lastMatch l with
    | some u => rw [hf] at h; exact ih (hf.trans h)
    | none =>
      rw [hf] at h
      by_cases ha : a ∈ reprTypeNames
      · rw [if_pos ha] at h
        cases h
        exact ha
      · rw [if_neg ha] at h
        cases h

/-- A scan over arguments none of which is a known name finds nothing. -/
theorem lastMatch_none (args : List String)
    (h : ∀ g ∈ args, g ∉ reprTypeNames) : lastMatch args = none := by
  induction args with
  | nil => rfl
  | cons a l ih =>
    rw [lastMatch, ih (fun g hg => h g (List.mem_cons_of_mem a hg)),
      if_neg (h a (List.mem_cons_self a l))]

/-! ### Helper lemmas about the documentation transform -/

/-- From a defined counter, one resolver step always yields a value and a
defined counter. -/
theorem resolveStep_some (k : Int) (d : Option DiscExpr) :
    ∃ m m', resolveStep (some k) d = (some m, some m') := by
  cases d with
  | none => exact ⟨k, k + 1, rfl⟩
  | some de =>
    cases de with
    | litInt n => exact ⟨n, n + 1, rfl⟩
    | other => exact ⟨k, k + 1, rfl⟩

/-- Cons equation of the output loop. -/
theorem genGo_cons (reprTy : String) (nv : Option Int) (v : EVariantIn)
    (rest : List EVariantIn) :
    genGo reprTy nv (v :: rest) =
      { vattrs := v.vattrs
        doc := docLine v.ident (resolveStep nv v.disc).1
        ident := v.ident
        disc := (resolveStep nv v.disc).1.map (fun n => (n, reprTy)) } ::
        genGo reprTy (resolveStep nv v.disc).2 rest := rfl

/-- Cons equation of the resolver run. -/
theorem resolveGo_cons (nv : Option Int) (v : EVariantIn)
    (rest : List EVariantIn) :
    resolveGo nv (v :: rest) =
      (v.ident, (resolveStep nv v.disc).1) :: resolveGo (resolveStep nv v.disc).2 rest := rfl

/-- Starting from a defined counter, every output variant carries a value:
its emitted discriminant is that value cast to the repr type and its doc
line is the resolved form. -/
theorem genGo_all_resolved (reprTy : String) :
    ∀ (vs : List EVariantIn) (k : Int),
      ∀ ov ∈ genGo reprTy (some k) vs,
        ∃ n, ov.disc = some (n, reprTy) ∧ ov.doc = docResolved ov.ident n := by
  intro vs
  induction vs with
  | nil =>
    intro k ov h
    simp [genGo] at h
  | cons v rest ih =>
    intro k ov h
    obtain ⟨m, m', hst⟩ := resolveStep_some k v.disc
    rw [genGo_cons, hst] at h
    rcases List.mem_cons.mp h with he | ht
    · subst he
      exact ⟨m, rfl, rfl⟩
    · exact ih m' ov ht

/-- Starting from a defined counter, the counter stays defined after any
variant list. -/
theorem resolveFinal_some : ∀ (vs : List EVariantIn) (k : Int),
    ∃ m, resolveFinal (some k) vs = some m := by
  intro vs
  induction vs with
  | nil => intro k; exact ⟨k, rfl⟩
  | cons v rest ih =>
    intro k
    obtain ⟨m, m', hst⟩ := resolveStep_some k v.disc
    rw [resolveFinal, hst]
    exact ih m'

/-- The emitted discriminants are exactly the resolver's values cast to
the repr type. -/
theorem genGo_map_disc (reprTy : String) :
    ∀ (vs : List EVariantIn) (nv : Option Int),
      (genGo reprTy nv vs).map OutVariant.disc =
        (resolveGo nv vs).map (fun p => p.2.map (fun n => (n, reprTy))) := by
  intro vs
  induction vs with
  | nil => intro nv; rfl
  | cons v rest ih =>
    intro nv
    rw [genGo_cons, resolveGo_cons, List.map_cons, List.map_cons, ih]


/-! ### Claims -/

/-- C1: for an enum with a recognised representation type and variants
with pairwise distinct discriminants (and, as the enum grammar
guarantees, pairwise distinct identifiers), the `FromReprAsOption` derive
succeeds with one arm per variant in declaration order, and the generated
`from_repr` returns `some vi` exactly on input `di` and `none` on every
input outside the discriminant set. -/
theorem from_repr_option_correct
    (name t : String) (attrs : List Attr) (vs : List (String × Int)) (x : Int)
    (hrepr : get_repr_type attrs = some t)
    (hfst : (vs.map Prod.fst).Nodup) (hsnd : (vs.map Prod.snd).Nodup) :
    from_repr_as_option_derive_impl ⟨name, attrs, Data.enumData vs⟩ =
      Derived.ok ⟨t, vs⟩ ∧
    (∀ v d, (v, d) ∈ vs → (run_from_repr ⟨t, vs⟩ x = some v ↔ x = d)) ∧
    (x ∉ vs.map Prod.snd → run_from_repr ⟨t, vs⟩ x = none) := by
  refine ⟨by simp [from_repr_as_option_derive_impl, hrepr], ?_, ?_⟩
  · intro v d hmem
    constructor
    · intro hrun
      unfold run_from_repr at hrun
      cases hfind : List.find? (fun p => p.2 == x) vs with
      | none => rw [hfind] at hrun; simp at hrun
      | some p =>
        rw [hfind] at hrun
        have hp1 : p.1 = v := by simpa using hrun
        have hpx : p.2 = x := by simpa using List.find?_some hfind
        have hpmem : p ∈ vs := List.mem_of_find?_eq_some hfind
        have hvx : (v, x) ∈ vs := by
          have hp : p = (v, x) := by
            cases p
            simp_all
          rwa [hp] at hpmem
        exact arm_value_unique vs v x d hfst hvx hmem
    · intro hxd
      subst hxd
      unfold run_from_repr
      rw [find?_arm_of_nodup vs v x hsnd hmem]
      rfl
  · intro hx
    unfold run_from_repr
    rw [find?_arm_none vs x (fun p hp hpx => hx (by rw [← hpx]; exact List.mem_map_of_mem Prod.snd hp))]
    rfl

/-- Witness for C1: the `Command` enum of the crate's test suite, with
`Read = 1` and `Write = 2` under `#[repr(u8)]`. -/
theorem from_repr_option_correct_witness :
    run_from_repr ⟨"u8", [("Read", 1), ("Write", 2)]⟩ 1 = some "Read" ∧
    run_from_repr ⟨"u8", [("Read", 1), ("Write", 2)]⟩ 3 = none := by
  constructor
  · exact ((from_repr_option_correct "Command" "u8" [⟨"repr", ["u8"]⟩]
      [("Read", 1), ("Write", 2)] 1 (by decide) (by decide) (by decide)).2.1
      "Read" 1 (by decide)).mpr rfl
  · exact (from_repr_option_correct "Command" "u8" [⟨"repr", ["u8"]⟩]
      [("Read", 1), ("Write", 2)] 3 (by decide) (by decide) (by decide)).2.2 (by decide)

/-- C2: for an enum with a recognised representation type, a variant named
`Unknown`, and pairwise distinct identifiers and discriminants, the
`FromReprWithUnknown` derive succeeds with one arm per non-`Unknown`
variant, and the generated conversion maps `di` to `vi` and every other
input (in particular every input when `Unknown` is the only variant) to
`Unknown`. -/
theorem from_unknown_correct
    (name t : String) (attrs : List Attr) (vs : List (String × Int)) (x : Int)
    (hrepr : get_repr_type attrs = some t)
    (hunk : ∃ du, ("Unknown", du) ∈ vs)
    (hfst : (vs.map Prod.fst).Nodup) (hsnd : (vs.map Prod.snd).Nodup) :
    from_repr_with_unknown_derive_impl ⟨name, attrs, Data.enumData vs⟩ =
      Derived.ok ⟨t, vs.filterMap (fun v => if v.1 = "Unknown" then none else some v), "Unknown"⟩ ∧
    (∀ v d, (v, d) ∈ vs → v ≠ "Unknown" → x = d →
      run_with_unknown ⟨t, vs.filterMap (fun v => if v.1 = "Unknown" then none else some v), "Unknown"⟩ x = v) ∧
    ((∀ v d, (v, d) ∈ vs → v ≠ "Unknown" → x ≠ d) →
      run_with_unknown ⟨t, vs.filterMap (fun v => if v.1 = "Unknown" then none else some v), "Unknown"⟩ x = "Unknown") := by
  obtain ⟨du, hdu⟩ := hunk
  have hL : vs.filterMap (fun v => if v.1 = "Unknown" then none else some v) =
      vs.filter (fun p => p.1 != "Unknown") := filterMap_unknown_eq_filter vs
  have hsub : List.Sublist (vs.filter (fun p => p.1 != "Unknown")) vs :=
    List.filter_sublist vs
  refine ⟨by simp [from_repr_with_unknown_derive_impl, hrepr], ?_, ?_⟩
  · intro v d hmem hne hxd
    unfold run_with_unknown
    rw [hL]
    have hmemf : (v, d) ∈ vs.filter (fun p => p.1 != "Unknown") :=
      List.mem_filter.mpr ⟨hmem, by simpa using hne⟩
    have hsndf : ((vs.filter (fun p => p.1 != "Unknown")).map Prod.snd).Nodup :=
      hsnd.sublist (hsub.map Prod.snd)
    rw [hxd, find?_arm_of_nodup _ v d hsndf hmemf]
  · intro hmiss
    unfold run_with_unknown
    rw [hL]
    have hnone : (vs.filter (fun p => p.1 != "Unknown")).find? (fun p => p.2 == x) = none := by
      apply find?_arm_none
      intro p hp hpx
      have hpv := List.mem_filter.mp hp
      have hne : p.1 ≠ "Unknown" := by simpa using hpv.2
      exact hmiss p.1 p.2 hpv.1 hne hpx.symm
    rw [hnone]

/-- Witness for C2: the `Status` enum of the crate's test suite
(`Active = 0`, `Inactive = 1`, `Unknown = 2` under `#[repr(u8)]`), plus
the boundary enum whose only variant is `Unknown`. -/
theorem from_unknown_correct_witness :
    run_with_unknown ⟨"u8",
      [("Active", 0), ("Inactive", 1), ("Unknown", 2)].filterMap
        (fun v => if v.1 = "Unknown" then none else some v), "Unknown"⟩ 0 = "Active" ∧
    run_with_unknown ⟨"u8",
      [("Active", 0), ("Inactive", 1), ("Unknown", 2)].filterMap
        (fun v => if v.1 = "Unknown" then none else some v), "Unknown"⟩ 99 = "Unknown" ∧
    run_with_unknown ⟨"u8",
      [("Unknown", 0)].filterMap
        (fun v => if v.1 = "Unknown" then none else some v), "Unknown"⟩ 0 = "Unknown" := by
  refine ⟨?_, ?_, ?_⟩
  · exact (from_unknown_correct "Status" "u8" [⟨"repr", ["u8"]⟩]
      [("Active", 0), ("Inactive", 1), ("Unknown", 2)] 0 (by decide)
      ⟨2, by decide⟩ (by decide) (by decide)).2.1 "Active" 0 (by decide) (by decide) rfl
  · refine (from_unknown_correct "Status" "u8" [⟨"repr", ["u8"]⟩]
      [("Active", 0), ("Inactive", 1), ("Unknown", 2)] 99 (by decide)
      ⟨2, by decide⟩ (by decide) (by decide)).2.2 ?_
    intro v d hmem hne
    simp only [List.mem_cons, List.not_mem_nil, or_false, Prod.mk.injEq] at hmem
    rcases hmem with ⟨rfl, rfl⟩ | ⟨rfl, rfl⟩ | ⟨rfl, rfl⟩ <;> decide
  · refine (from_unknown_correct "OnlyUnknown" "u8" [⟨"repr", ["u8"]⟩]
      [("Unknown", 0)] 0 (by decide)
      ⟨0, by decide⟩ (by decide) (by decide)).2.2 ?_
    intro v d hmem hne
    simp only [List.mem_cons, List.not_mem_nil, or_false, Prod.mk.injEq] at hmem
    rcases hmem with ⟨rfl, rfl⟩
    exact absurd rfl hne


/-- C3 counterexample: on the `tests/ui/missing_unknown.rs` enum
(`Status` with `Active = 0`, `Inactive = 1` and no `Unknown` variant,
under `#[repr(u8)]`), the `FromReprWithUnknown` derive raises no fatal
error at all: it emits an impl, so the claimed synthesis-time check does
not exist.  (Compilation still fails, but only later, when the host
compiler meets the emitted reference to `Status::Unknown`.) -/
theorem missing_unknown_not_checked_cex :
    "Unknown" ∉ ([("Active", 0), ("Inactive", 1)] : List (String × Int)).map Prod.fst ∧
    from_repr_with_unknown_derive_impl
      ⟨"Status", [⟨"repr", ["u8"]⟩], Data.enumData [("Active", 0), ("Inactive", 1)]⟩ =
      Derived.ok ⟨"u8", [("Active", 0), ("Inactive", 1)], "Unknown"⟩ := by
  constructor
  · decide
  · rfl

/-- C3 amended: the `FromReprWithUnknown` derive performs no existence
check for a variant named `Unknown`.  It scans variant identifiers only to
exclude `Unknown`-named variants from the match arms, and for every enum
with a parsable `#[repr(...)]` it unconditionally emits an impl whose
fallback arm references `Enum::Unknown` — whether or not such a variant
exists.  An enum lacking the variant still fails compilation, but in the
host compiler at the emitted reference, not through a synthesis-time
diagnostic of the transform. -/
theorem with_unknown_no_existence_check
    (name t : String) (attrs : List Attr) (vs : List (String × Int))
    (hrepr : get_repr_type attrs = some t) :
    from_repr_with_unknown_derive_impl ⟨name, attrs, Data.enumData vs⟩ =
      Derived.ok ⟨t, vs.filterMap (fun v => if v.1 = "Unknown" then none else some v),
        "Unknown"⟩ := by
  simp [from_repr_with_unknown_derive_impl, hrepr]

/-- Witness for the amended C3: the derive succeeds on an enum that has no
`Unknown` variant. -/
theorem with_unknown_no_existence_check_witness :
    from_repr_with_unknown_derive_impl
      ⟨"Status2", [⟨"repr", ["u16"]⟩], Data.enumData [("Active", 0)]⟩ =
      Derived.ok ⟨"u16",
        [("Active", 0)].filterMap (fun v => if v.1 = "Unknown" then none else some v),
        "Unknown"⟩ :=
  with_unknown_no_existence_check "Status2" "u16" [⟨"repr", ["u16"]⟩] [("Active", 0)]
    (by decide)

/-- C4 counterexample: in the enum `E { A = <non-literal expr>, B }` under
`#[repr(u8)]`, the variant `A` is not marked unknown: it receives the
running counter's value 0 (doc line `A = 0x0 (0)`, emitted discriminant
`0 as u8`), and the counter advances, so `B` resolves to 1 — the claim
predicts the doc form `A (unknown)`, no emitted value for `A`, and an
unchanged counter. -/
theorem nonliteral_disc_cex :
    (generate_enum_with_docs ⟨"E", [⟨"repr", ["u8"]⟩],
        [⟨"A", [], some DiscExpr.other⟩, ⟨"B", [], none⟩]⟩).variants.map OutVariant.doc =
      ["A = 0x0 (0)", "B = 0x1 (1)"] ∧
    (generate_enum_with_docs ⟨"E", [⟨"repr", ["u8"]⟩],
        [⟨"A", [], some DiscExpr.other⟩, ⟨"B", [], none⟩]⟩).variants.map OutVariant.disc =
      [some (0, "u8"), some (1, "u8")] := by
  constructor
  · rfl
  · rfl

/-- C4 amended: a variant whose explicit discriminant is a non-literal
expression is treated exactly like a variant with no discriminant: the
resolver's step function cannot distinguish the two, so the variant is
assigned the running counter's current value and the counter increments
by one. -/
theorem nonliteral_treated_as_missing (s : Option Int) (k : Int) :
    resolveStep s (some DiscExpr.other) = resolveStep s none ∧
    resolveStep (some k) (some DiscExpr.other) = (some k, some (k + 1)) := by
  constructor
  · cases s <;> rfl
  · rfl

/-- C5 counterexample: on the attribute list `[#[repr(C)]]`, the
conversion derives' extractor returns the identifier `C`, which is outside
the closed set of twelve integer type names — it validates nothing, so the
claim fails for the extractor used by the two conversion derives. -/
theorem get_repr_unvalidated_cex :
    get_repr_type [⟨"repr", ["C"]⟩] = some "C" ∧ "C" ∉ reprTypeNames := by
  constructor
  · rfl
  · decide

/-- C5 amended: the claim holds for the documentation transform's
extractor `extract_repr` — it returns only members of the closed set of
twelve names, and returns `none` when no `repr` attribute is present or no
argument of any `repr` attribute is a known name.  The conversion derives'
`get_repr_type`, however, returns the single argument of the first `repr`
attribute unvalidated; only its "no repr attribute present" case obeys the
claim. -/
theorem extract_repr_closed_set (attrs : List Attr) :
    (∀ t, extract_repr attrs = some t → t ∈ reprTypeNames) ∧
    ((∀ a ∈ attrs, a.path ≠ "repr") →
      get_repr_type attrs = none ∧ extract_repr attrs = none) ∧
    ((∀ a ∈ attrs, a.path = "repr" → ∀ g ∈ a.args, g ∉ reprTypeNames) →
      extract_repr attrs = none) := by
  induction attrs with
  | nil =>
    refine ⟨?_, ?_, ?_⟩
    · intro t h
      cases h
    · intro h
      exact ⟨rfl, rfl⟩
    · intro h
      rfl
  | cons a rest ih =>
    refine ⟨?_, ?_, ?_⟩
    · intro t h
      rw [extract_repr] at h
      by_cases hp : a.path = "repr"
      · rw [if_pos hp] at h
        cases hscan : scanReprArgs a.args with
        | some u =>
          rw [hscan] at h
          cases h
          exact lastMatch_mem a.args t ((scanReprArgs_eq_lastMatch a.args).symm.trans hscan)
        | none =>
          rw [hscan] at h
          exact ih.1 t h
      · rw [if_neg hp] at h
        exact ih.1 t h
    · intro hall
      have hp : a.path ≠ "repr" := hall a (List.mem_cons_self a rest)
      have hrest := ih.2.1 (fun b hb => hall b (List.mem_cons_of_mem a hb))
      constructor
      · rw [get_repr_type, if_neg hp]
        exact hrest.1
      · rw [extract_repr, if_neg hp]
        exact hrest.2
    · intro hall
      have hrest := ih.2.2 (fun b hb => hall b (List.mem_cons_of_mem a hb))
      rw [extract_repr]
      by_cases hp : a.path = "repr"
      · rw [if_pos hp]
        have hscan : scanReprArgs a.args = none := by
          rw [scanReprArgs_eq_lastMatch]
          exact lastMatch_none a.args (hall a (List.mem_cons_self a rest) hp)
        rw [hscan]
        exact hrest
      · rw [if_neg hp]
        exact hrest

/-- Witness for the amended C5: a `derive` attribute and a `repr`
attribute whose only argument `C` is not an integer type name yield
`none` from `extract_repr`. -/
theorem extract_repr_closed_set_witness :
    extract_repr [⟨"derive", ["Debug"]⟩, ⟨"repr", ["C"]⟩] = none :=
  (extract_repr_closed_set [⟨"derive", ["Debug"]⟩, ⟨"repr", ["C"]⟩]).2.2 (by decide)

/-- C6 counterexample: on `#[repr(u8, u16)]` the first matching argument
is `u8`, but `extract_repr` returns `u16` — the scan overwrites `found` on
every match, so the last matching token wins, not the first. -/
theorem extract_repr_last_match_cex :
    extract_repr [⟨"repr", ["u8", "u16"]⟩] = some "u16" ∧
    "u8" ∈ reprTypeNames ∧ ("u16" : String) ≠ "u8" := by
  refine ⟨rfl, by decide, by decide⟩

/-- C6 amended: when a `repr` attribute's argument list contains more than
one token matching a known integer type name, `extract_repr` returns the
LAST matching token in argument order (and falls through to the remaining
attributes when no argument matches). -/
theorem extract_repr_last_match (a : Attr) (rest : List Attr)
    (h : a.path = "repr") :
    extract_repr (a :: rest) =
      match lastMatch a.args with
      | some t => some t
      | none => extract_repr rest := by
  rw [extract_repr, if_pos h, scanReprArgs_eq_lastMatch]

/-- Witness for the amended C6: with arguments `[i8, u32, foo]` the last
matching token `u32` is returned, ahead of a later `repr` attribute. -/
theorem extract_repr_last_match_witness :
    (extract_repr [⟨"repr", ["i8", "u32", "foo"]⟩, ⟨"repr", ["u8"]⟩] =
      match lastMatch ["i8", "u32", "foo"] with
      | some t => some t
      | none => extract_repr [⟨"repr", ["u8"]⟩]) ∧
    extract_repr [⟨"repr", ["i8", "u32", "foo"]⟩, ⟨"repr", ["u8"]⟩] = some "u32" :=
  ⟨extract_repr_last_match ⟨"repr", ["i8", "u32", "foo"]⟩ [⟨"repr", ["u8"]⟩] rfl, rfl⟩


/-- C7 counterexample: in the enum `E { A }` under `#[repr(u8)]`, the
variant `A` has no explicit discriminant, yet the documentation transform
emits it WITH a discriminant, namely its auto-resolved value `0 as u8` —
the claim predicts no discriminant in the output. -/
theorem implicit_disc_emitted_cex :
    ([⟨"A", [], none⟩] : List EVariantIn).map EVariantIn.disc = [none] ∧
    (generate_enum_with_docs
        ⟨"E", [⟨"repr", ["u8"]⟩], [⟨"A", [], none⟩]⟩).variants.map OutVariant.disc =
      [some (0, "u8")] := by
  constructor
  · rfl
  · rfl

/-- C7 amended: every output variant is emitted with a discriminant — the
resolver's value for it, re-cast to the representation type; a variant
with an explicit literal discriminant thus keeps that same value, while a
variant without one (or with a non-literal expression) is emitted with its
auto-resolved counter value instead of no discriminant. -/
theorem output_disc_resolved (input : ItemEnumIn) :
    (generate_enum_with_docs input).variants.map OutVariant.disc =
      (resolveAll input.variants).map
        (fun p => p.2.map (fun n => (n, (generate_enum_with_docs input).reprTy))) ∧
    (∀ (s : Option Int) (n : Int),
      (resolveStep s (some (DiscExpr.litInt n))).1 = some n) := by
  constructor
  · exact genGo_map_disc ((extract_repr input.attrs).getD "isize") input.variants (some 0)
  · intro s n
    rfl

/-- C8: the Discriminant Resolver starts its counter at zero, a literal
discriminant yields that literal and sets the counter to literal + 1, a
missing discriminant yields the counter's value and increments it, and the
two example enums `{A, B, C}` and `{A = 1, B, C = 0xFF}` resolve to
`0, 1, 2` and `1, 2, 255`. -/
theorem resolver_rules :
    (∀ (s : Option Int) (n : Int),
      resolveStep s (some (DiscExpr.litInt n)) = (some n, some (n + 1))) ∧
    (∀ (k : Int), resolveStep (some k) none = (some k, some (k + 1))) ∧
    resolveAll [⟨"A", [], none⟩, ⟨"B", [], none⟩, ⟨"C", [], none⟩] =
      [("A", some 0), ("B", some 1), ("C", some 2)] ∧
    resolveAll [⟨"A", [], some (DiscExpr.litInt 1)⟩, ⟨"B", [], none⟩,
        ⟨"C", [], some (DiscExpr.litInt 255)⟩] =
      [("A", some 1), ("B", some 2), ("C", some 255)] := by
  refine ⟨?_, ?_, ?_, ?_⟩
  · intro s n
    rfl
  · intro k
    rfl
  · rfl
  · rfl

/-- C9: when `extract_repr` finds no representation attribute, the
documentation transform uses `isize` as the representation type of its
output. -/
theorem default_repr_isize (input : ItemEnumIn)
    (h : extract_repr input.attrs = none) :
    (generate_enum_with_docs input).reprTy = "isize" := by
  simp [generate_enum_with_docs, h]

/-- Witness for C9: an enum whose only attribute is `#[derive(Debug)]`. -/
theorem default_repr_isize_witness :
    (generate_enum_with_docs
      ⟨"E", [⟨"derive", ["Debug"]⟩], [⟨"A", [], none⟩]⟩).reprTy = "isize" :=
  default_repr_isize ⟨"E", [⟨"derive", ["Debug"]⟩], [⟨"A", [], none⟩]⟩ (by decide)

/-- C10: the running counter is defined before and after every variant (it
starts at `Some(0)` and every step from a defined counter leaves it
defined), so every output variant of the documentation transform carries
an explicit discriminant — its resolved value cast to the representation
type — and its doc line is the resolved `"<ident> = <hex> (<dec>)"` form,
never the `"<ident> (unknown)"` form. -/
theorem counter_always_defined (input : ItemEnumIn) :
    (∀ ov ∈ (generate_enum_with_docs input).variants,
      ∃ n, ov.disc = some (n, (generate_enum_with_docs input).reprTy) ∧
        ov.doc = docResolved ov.ident n) ∧
    (∀ (k : Int) (vs : List EVariantIn), ∃ m, resolveFinal (some k) vs = some m) := by
  constructor
  · exact genGo_all_resolved ((extract_repr input.attrs).getD "isize") input.variants 0
  · intro k vs
    exact resolveFinal_some vs k

/-- Witness for C10: the single output variant of `E { A }` under
`#[repr(u8)]` carries the discriminant `0 as u8` and the resolved doc
line. -/
theorem counter_always_defined_witness :
    ((⟨[], "A = 0x0 (0)", "A", some (0, "u8")⟩ : OutVariant) ∈
      (generate_enum_with_docs
        ⟨"E", [⟨"repr", ["u8"]⟩], [⟨"A", [], none⟩]⟩).variants) ∧
    (∃ n, (⟨[], "A = 0x0 (0)", "A", some (0, "u8")⟩ : OutVariant).disc =
        some (n, (generate_enum_with_docs
          ⟨"E", [⟨"repr", ["u8"]⟩], [⟨"A", [], none⟩]⟩).reprTy) ∧
      (⟨[], "A = 0x0 (0)", "A", some (0, "u8")⟩ : OutVariant).doc =
        docResolved "A" n) := by
  constructor
  · decide
  · exact (counter_always_defined
      ⟨"E", [⟨"repr", ["u8"]⟩], [⟨"A", [], none⟩]⟩).1
      ⟨[], "A = 0x0 (0)", "A", some (0, "u8")⟩ (by decide)


end Macrokit
